import Mathlib

/-!
Shallow embedding of the Institutional Event Resource Management core
(src/app.py and src/database.py): the SQLite tables become lists of
records, and the four business operations (`new_event`, `approve_event`,
`reject_event`, `complete_event`) become pure functions on a `State`.
SQLite TEXT comparison (BINARY collation, byte-wise on UTF-8) is modelled
by lexicographic comparison of the code-point lists, which induces the
same order.
-/

namespace EventMgr

/-- Lexicographic strict order on code-point lists, mirroring SQLite
BINARY collation on TEXT values (UTF-8 byte order equals code-point
order). -/
def charsLt : List Char → List Char → Bool
  | [], [] => false
  | [], _ :: _ => true
  | _ :: _, [] => false
  | a :: as, b :: bs => a.toNat < b.toNat || (a.toNat == b.toNat && charsLt as bs)

def strLtB (a b : String) : Bool := charsLt a.data b.data

def strLeB (a b : String) : Bool := !(strLtB b a)

/-- Row of the `users` table (only the columns the core reads). -/
structure User where
  id : Int
  role : String
  deriving Repr, DecidableEq

/-- Row of the `venues` table. -/
structure Venue where
  id : Int
  name : String
  capacity : Int
  location : String
  deriving Repr, DecidableEq

/-- Row of the `resources` table. -/
structure Resource where
  id : Int
  name : String
  total_quantity : Int
  available_quantity : Int
  deriving Repr, DecidableEq

/-- Row of the `events` table. -/
structure Event where
  id : Int
  title : String
  description : String
  event_date : String
  start_time : String
  end_time : String
  expected_attendees : Int
  venue_id : Int
  status : String
  current_approver_role : String
  created_by : Int
  rejection_reason : String
  deriving Repr, DecidableEq

/-- Row of the `event_resources` junction table (a resource hold). -/
structure EventResource where
  event_id : Int
  resource_id : Int
  quantity_requested : Int
  deriving Repr, DecidableEq

/-- Row of the `approvals` audit table. -/
structure Approval where
  event_id : Int
  approver_id : Int
  role : String
  action : String
  comment : String
  deriving Repr, DecidableEq

/-- Notification text, abstracted to its structured content (the exact
message strings are presentation glue). -/
inductive Msg where
  | needsApproval (title : String)
  | fullyApproved (title : String)
  | wasRejected (title : String) (role : String) (reason : String)
  deriving Repr, DecidableEq

/-- Row of the `notifications` table. -/
structure Notification where
  user_id : Int
  message : Msg
  deriving Repr, DecidableEq

/-- The database state seen by the core. `next_event_id` models the
AUTOINCREMENT counter of the `events` table (`cursor.lastrowid`). -/
structure State where
  users : List User
  venues : List Venue
  resources : List Resource
  events : List Event
  event_resources : List EventResource
  approvals : List Approval
  notifications : List Notification
  next_event_id : Int
  deriving Repr, DecidableEq

/-- The POST form of `new_event` after Python-side parsing: stripped
strings and `int(...)` fields; `req i` is `int(form.get("resource_i", 0))`. -/
structure SubmitForm where
  title : String
  description : String
  event_date : String
  start_time : String
  end_time : String
  expected_attendees : Int
  venue_id : Int
  req : Int → Int

/-- Admission errors of `new_event` (each is a flash + re-render in the
source, with no database write). -/
inductive SubmitError where
  | fieldsMissing
  | venueNotFound
  | capacityExceeded (requested : Int) (capacity : Int)
  | timeSlotConflict (title : String) (start_t : String) (end_t : String)
  | insufficientStock (name : String) (available : Int) (requested : Int)
  deriving Repr, DecidableEq

/-- Errors of the approve / reject / complete handlers. -/
inductive ActionError where
  | notFound
  | notCurrentApprover
  | emptyReason
  | cannotComplete
  | internalError
  deriving Repr, DecidableEq

def isOkE {ε α : Type} : Except ε α → Bool
  | .ok _ => true
  | .error _ => false

instance {ε α : Type} [DecidableEq ε] [DecidableEq α] : DecidableEq (Except ε α) := by
  intro a b
  cases a <;> cases b
  case error.error x y =>
    exact decidable_of_iff (x = y) ⟨fun h => by rw [h], fun h => by cases h; rfl⟩
  case error.ok x y => exact isFalse (fun h => by cases h)
  case ok.error x y => exact isFalse (fun h => by cases h)
  case ok.ok x y =>
    exact decidable_of_iff (x = y) ⟨fun h => by rw [h], fun h => by cases h; rfl⟩

/-- `SELECT * FROM venues WHERE id = ?` -/
def findVenue (s : State) (vid : Int) : Option Venue :=
  s.venues.find? (fun v => v.id == vid)

/-- `SELECT * FROM events WHERE id = ?` -/
def findEvent (s : State) (eid : Int) : Option Event :=
  s.events.find? (fun e => e.id == eid)

/-- The venue time-slot conflict query of `new_event` (app.py:192-197):
same venue and date, status not in (rejected, completed), and
`NOT (end_time <= start OR start_time >= end)`; `fetchone` returns the
first matching row in insertion order. -/
def conflictQuery (s : State) (vid : Int) (d st en : String) : Option Event :=
  s.events.find? (fun e =>
    e.venue_id == vid && e.event_date == d &&
    !(e.status == "rejected" || e.status == "completed") &&
    !(strLeB e.end_time st || strLeB en e.start_time))

/-- The resource-validation loop of `new_event` (app.py:209-221): walk
the resources in table order, short-circuit on the first requested
quantity exceeding availability, collect the positive requests. -/
def checkResources (rs : List Resource) (req : Int → Int) :
    Except SubmitError (List (Int × Int)) :=
  match rs with
  | [] => .ok []
  | r :: rest =>
    let qty := req r.id
    if qty > 0 then
      if qty > r.available_quantity then
        .error (.insufficientStock r.name r.available_quantity qty)
      else
        match checkResources rest req with
        | .error e => .error e
        | .ok more => .ok ((r.id, qty) :: more)
    else checkResources rest req

/-- `UPDATE resources SET available_quantity = available_quantity - ? WHERE id = ?` -/
def debitOne (rs : List Resource) (rid qty : Int) : List Resource :=
  rs.map (fun r =>
    if r.id == rid then { r with available_quantity := r.available_quantity - qty } else r)

/-- `UPDATE resources SET available_quantity = available_quantity + ? WHERE id = ?` -/
def creditOne (rs : List Resource) (rid qty : Int) : List Resource :=
  rs.map (fun r =>
    if r.id == rid then { r with available_quantity := r.available_quantity + qty } else r)

/-- The release loop of `reject_event` / `complete_event`: credit every
hold row of the booking back to its resource. -/
def creditHolds (rs : List Resource) (hs : List EventResource) : List Resource :=
  hs.foldl (fun acc h => creditOne acc h.resource_id h.quantity_requested) rs

/-- `SELECT resource_id, quantity_requested FROM event_resources WHERE event_id = ?` -/
def heldBy (s : State) (eid : Int) : List EventResource :=
  s.event_resources.filter (fun h => h.event_id == eid)

/-- `UPDATE events SET ... WHERE id = ?` -/
def updateEventRow (es : List Event) (eid : Int) (u : Event → Event) : List Event :=
  es.map (fun e => if e.id == eid then u e else e)

/-- The falsy-field test of app.py:169 (`not all([...])`): Python
truthiness on the stripped strings and the parsed venue id. -/
def basicsMissing (f : SubmitForm) : Bool :=
  f.title == "" || f.event_date == "" || f.start_time == "" || f.end_time == "" ||
    f.venue_id == 0

/-- The fresh `events` row inserted by `new_event` (app.py:224-230). -/
def mkNewEvent (f : SubmitForm) (uid : Int) (s : State) : Event :=
  ⟨s.next_event_id, f.title, f.description, f.event_date, f.start_time, f.end_time,
   f.expected_attendees, f.venue_id, "pending_hod", "hod", uid, ""⟩

/-- The writes of `new_event` after all checks passed (app.py:223-252):
insert the event in `pending_hod`, insert one hold row and debit stock
per validated request, then notify the first HOD if one exists. -/
def admitState (f : SubmitForm) (uid : Int) (s : State) (reqs : List (Int × Int)) : State :=
  let eid := s.next_event_id
  let ev : Event := mkNewEvent f uid s
  let s1 : State := { s with events := s.events ++ [ev], next_event_id := eid + 1 }
  let s2 : State := reqs.foldl (fun st p =>
    { st with
      event_resources := st.event_resources ++ [⟨eid, p.1, p.2⟩],
      resources := debitOne st.resources p.1 p.2 }) s1
  match s.users.find? (fun u => u.role == "hod") with
  | some h => { s2 with notifications := s2.notifications ++ [⟨h.id, .needsApproval f.title⟩] }
  | none => s2

/-- `new_event` POST handler (app.py:159-255). -/
def newEvent (f : SubmitForm) (uid : Int) (s : State) : Except SubmitError State :=
  if basicsMissing f then .error .fieldsMissing
  else
    match findVenue s f.venue_id with
    | none => .error .venueNotFound
    | some venue =>
      if f.expected_attendees > venue.capacity then
        .error (.capacityExceeded f.expected_attendees venue.capacity)
      else
        match conflictQuery s f.venue_id f.event_date f.start_time f.end_time with
        | some c => .error (.timeSlotConflict c.title c.start_time c.end_time)
        | none =>
          match checkResources s.resources f.req with
          | .error e => .error e
          | .ok reqs => .ok (admitState f uid s reqs)

/-- The roles admitted by `@role_required("hod", "dean", "head")` on the
approve and reject routes. -/
inductive ApproverRole where
  | hod | dean | head
  deriving Repr, DecidableEq

def ApproverRole.toStr : ApproverRole → String
  | .hod => "hod"
  | .dean => "dean"
  | .head => "head"

/-- `APPROVAL_FLOW[status]["next"]` (app.py:19-23). -/
def flowNext : String → Option String
  | "pending_hod" => some "pending_dean"
  | "pending_dean" => some "pending_head"
  | "pending_head" => some "approved"
  | _ => none

/-- `APPROVAL_FLOW.get(status, {}).get("role", ...)` (app.py:19-23). -/
def flowRole : String → Option String
  | "pending_hod" => some "hod"
  | "pending_dean" => some "dean"
  | "pending_head" => some "head"
  | _ => none

/-- The event-row update of an `UPDATE events SET status = ?,
current_approver_role = ? WHERE id = ?` statement. -/
def statusRoleUpd (ns nr : String) : Event → Event :=
  fun e => { e with status := ns, current_approver_role := nr }

/-- The event-row update of `reject_event` (app.py:399-402). -/
def rejectUpd (reason : String) : Event → Event :=
  fun e => { e with status := "rejected", rejection_reason := reason,
                    current_approver_role := "" }

theorem statusRoleUpd_id (ns nr : String) : ∀ e, (statusRoleUpd ns nr e).id = e.id :=
  fun _ => rfl

theorem rejectUpd_id (reason : String) : ∀ e, (rejectUpd reason e).id = e.id :=
  fun _ => rfl

/-- `approve_event` handler (app.py:316-367). The `internalError` branch
models the KeyError a missing APPROVAL_FLOW entry would raise; it is
unreachable because the guard forces the status to be a flow key. -/
def approveEvent (r : ApproverRole) (uid eid : Int) (comment : String) (s : State) :
    Except ActionError State :=
  match findEvent s eid with
  | none => .error .notFound
  | some ev =>
    if ev.status != "pending_" ++ r.toStr then .error .notCurrentApprover
    else
      match flowNext ev.status with
      | none => .error .internalError
      | some nextStatus =>
        let nextRole := (flowRole nextStatus).getD ""
        let s1 : State := { s with
          approvals := s.approvals ++ [⟨eid, uid, r.toStr, "approved", comment⟩],
          events := updateEventRow s.events eid (statusRoleUpd nextStatus nextRole) }
        if nextStatus == "approved" then
          .ok { s1 with
            notifications := s1.notifications ++ [⟨ev.created_by, .fullyApproved ev.title⟩] }
        else
          match s.users.find? (fun u => u.role == nextRole) with
          | some nu => .ok { s1 with
              notifications := s1.notifications ++ [⟨nu.id, .needsApproval ev.title⟩] }
          | none => .ok s1

/-- `reject_event` handler (app.py:370-425); `reason` is the stripped
form field. -/
def rejectEvent (r : ApproverRole) (uid eid : Int) (reason : String) (s : State) :
    Except ActionError State :=
  match findEvent s eid with
  | none => .error .notFound
  | some ev =>
    if ev.status != "pending_" ++ r.toStr then .error .notCurrentApprover
    else if reason == "" then .error .emptyReason
    else
      let s1 : State := { s with
        approvals := s.approvals ++ [⟨eid, uid, r.toStr, "rejected", reason⟩],
        events := updateEventRow s.events eid (rejectUpd reason) }
      let s2 : State := { s1 with resources := creditHolds s1.resources (heldBy s1 eid) }
      .ok { s2 with
        notifications := s2.notifications ++ [⟨ev.created_by, .wasRejected ev.title r.toStr reason⟩] }

/-- `complete_event` handler (app.py:428-460). -/
def completeEvent (uid eid : Int) (s : State) : Except ActionError State :=
  match findEvent s eid with
  | none => .error .notFound
  | some ev =>
    if ev.status != "approved" || ev.created_by != uid then .error .cannotComplete
    else
      let s1 : State := { s with
        events := updateEventRow s.events eid (statusRoleUpd "completed" "") }
      .ok { s1 with resources := creditHolds s1.resources (heldBy s1 eid) }

/-- One externally triggered operation on the store. -/
inductive Op where
  | submit (f : SubmitForm) (uid : Int)
  | approve (r : ApproverRole) (uid : Int) (eid : Int) (comment : String)
  | reject (r : ApproverRole) (uid : Int) (eid : Int) (reason : String)
  | complete (uid : Int) (eid : Int)

/-- Run one operation; a failing operation leaves the store untouched
(the handlers flash and re-render without writing). -/
def stepTotal (s : State) : Op → State
  | .submit f uid =>
    match newEvent f uid s with
    | .ok s2 => s2
    | .error _ => s
  | .approve r uid eid c =>
    match approveEvent r uid eid c s with
    | .ok s2 => s2
    | .error _ => s
  | .reject r uid eid reason =>
    match rejectEvent r uid eid reason s with
    | .ok s2 => s2
    | .error _ => s
  | .complete uid eid =>
    match completeEvent uid eid s with
    | .ok s2 => s2
    | .error _ => s

def run (s : State) : List Op → State
  | [] => s
  | op :: ops => run (stepTotal s op) ops

/-- `op` executes the hold-release path for booking `eid` (the
resource-credit loop of reject or complete) when applied in `s`. -/
def releases (s : State) (op : Op) (eid : Int) : Bool :=
  match op with
  | .reject r uid e reason => e == eid && isOkE (rejectEvent r uid e reason s)
  | .complete uid e => e == eid && isOkE (completeEvent uid e s)
  | _ => false

/-- Number of times the release path runs for booking `eid` along a
trace of operations. -/
def releaseCount (s : State) (ops : List Op) (eid : Int) : Nat :=
  match ops with
  | [] => 0
  | op :: rest =>
    (if releases s op eid then 1 else 0) + releaseCount (stepTotal s op) rest eid

def statusTerminalB (s : State) (eid : Int) : Bool :=
  match findEvent s eid with
  | some e => e.status == "rejected" || e.status == "completed"
  | none => false

/-- Sum of the held quantities of the holds satisfying `p`. -/
def holdsSum (hs : List EventResource) (p : EventResource → Bool) : Int :=
  ((hs.filter p).map (fun h => h.quantity_requested)).sum

/-- The booking `eid` currently holds its resources (its status is
neither rejected nor completed). -/
def outstandingE (es : List Event) (eid : Int) : Bool :=
  match es.find? (fun e => e.id == eid) with
  | some e => !(e.status == "rejected" || e.status == "completed")
  | none => false

/-- Total outstanding holds on resource `rid`. -/
def outstandingHoldsE (es : List Event) (hs : List EventResource) (rid : Int) : Int :=
  holdsSum hs (fun h => h.resource_id == rid && outstandingE es h.event_id)

/-- The ledger invariant: for every resource row, available stock plus
outstanding holds equals total stock. -/
def InventoryInv (s : State) : Prop :=
  ∀ r ∈ s.resources,
    r.available_quantity + outstandingHoldsE s.events s.event_resources r.id = r.total_quantity

/-- Structural well-formedness maintained by AUTOINCREMENT: every event
id and every hold's event reference is below the next fresh id. -/
def WellFormed (s : State) : Prop :=
  (∀ e ∈ s.events, e.id < s.next_event_id) ∧
  (∀ h ∈ s.event_resources, h.event_id < s.next_event_id)

instance (s : State) : Decidable (InventoryInv s) := by
  unfold InventoryInv; infer_instance

instance (s : State) : Decidable (WellFormed s) := by
  unfold WellFormed; infer_instance

/-! ### Helper lemmas about row lookups and updates -/

theorem find?_update_ne (es : List Event) (eid x : Int) (u : Event → Event)
    (hu : ∀ e, (u e).id = e.id) (hx : x ≠ eid) :
    List.find? (fun e => e.id == x) (updateEventRow es eid u)
      = List.find? (fun e => e.id == x) es := by
  unfold updateEventRow
  induction es with
  | nil => rfl
  | cons e es ih =>
    rw [List.map_cons]
    by_cases h : e.id = eid
    · rw [if_pos (by simp [h])]
      rw [List.find?_cons_of_neg _ (by simp [hu, h]; omega),
          List.find?_cons_of_neg _ (by simp [h]; omega)]
      exact ih
    · rw [if_neg (by simp [h])]
      by_cases h2 : e.id = x
      · rw [List.find?_cons_of_pos _ (by simp [h2]), List.find?_cons_of_pos _ (by simp [h2])]
      · rw [List.find?_cons_of_neg _ (by simp [h2]), List.find?_cons_of_neg _ (by simp [h2])]
        exact ih

theorem find?_update_eq (es : List Event) (eid : Int) (u : Event → Event) (ev : Event)
    (hu : ∀ e, (u e).id = e.id)
    (hfind : List.find? (fun e => e.id == eid) es = some ev) :
    List.find? (fun e => e.id == eid) (updateEventRow es eid u) = some (u ev) := by
  unfold updateEventRow
  induction es with
  | nil => cases hfind
  | cons e es ih =>
    rw [List.map_cons]
    by_cases h : e.id = eid
    · rw [List.find?_cons_of_pos _ (by simp [h])] at hfind
      rw [if_pos (by simp [h]), List.find?_cons_of_pos _ (by simp [hu, h])]
      rw [Option.some.injEq] at hfind
      rw [hfind]
    · rw [List.find?_cons_of_neg _ (by simp [h])] at hfind
      rw [if_neg (by simp [h]), List.find?_cons_of_neg _ (by simp [h])]
      exact ih hfind

theorem updateEventRow_keeps_ids (es : List Event) (eid : Int) (u : Event → Event)
    (hu : ∀ e, (u e).id = e.id) :
    ∀ e2 ∈ updateEventRow es eid u, ∃ e ∈ es, e2.id = e.id := by
  intro e2 h2
  unfold updateEventRow at h2
  obtain ⟨e, he, hfe⟩ := List.mem_map.mp h2
  refine ⟨e, he, ?_⟩
  by_cases h : e.id = eid
  · rw [← hfe]; simp [h, hu]
  · rw [← hfe]; simp [h]

theorem outstandingE_update_ne (es : List Event) (eid x : Int) (u : Event → Event)
    (hu : ∀ e, (u e).id = e.id) (hx : x ≠ eid) :
    outstandingE (updateEventRow es eid u) x = outstandingE es x := by
  unfold outstandingE
  rw [find?_update_ne es eid x u hu hx]

theorem outstandingE_update_eq (es : List Event) (eid : Int) (u : Event → Event) (ev : Event)
    (hu : ∀ e, (u e).id = e.id)
    (hfind : List.find? (fun e => e.id == eid) es = some ev) :
    outstandingE (updateEventRow es eid u) eid
      = !((u ev).status == "rejected" || (u ev).status == "completed") := by
  unfold outstandingE
  rw [find?_update_eq es eid u ev hu hfind]

theorem outstandingE_append_old (es : List Event) (ev : Event) (x : Int) (hx : x ≠ ev.id) :
    outstandingE (es ++ [ev]) x = outstandingE es x := by
  unfold outstandingE
  rw [List.find?_append]
  cases h : List.find? (fun e => e.id == x) es
  · have h2 : List.find? (fun e => e.id == x) [ev] = none := by
      rw [List.find?_cons_of_neg _ (by simp; omega)]
      rfl
    rw [h2]; rfl
  · rfl

theorem outstandingE_append_new (es : List Event) (ev : Event)
    (hes : ∀ e ∈ es, e.id ≠ ev.id) :
    outstandingE (es ++ [ev]) ev.id
      = !(ev.status == "rejected" || ev.status == "completed") := by
  unfold outstandingE
  rw [List.find?_append]
  have h1 : List.find? (fun e => e.id == ev.id) es = none :=
    List.find?_eq_none.mpr (by intro x hx; simp [hes x hx])
  rw [h1]
  simp [List.find?, Option.or]

/-! ### Helper lemmas about hold sums and the credit / debit loops -/

theorem holdsSum_cons (h : EventResource) (hs : List EventResource) (p : EventResource → Bool) :
    holdsSum (h :: hs) p = (if p h then h.quantity_requested else 0) + holdsSum hs p := by
  unfold holdsSum
  cases hp : p h <;> simp [List.filter_cons, hp]

theorem holdsSum_append (hs1 hs2 : List EventResource) (p : EventResource → Bool) :
    holdsSum (hs1 ++ hs2) p = holdsSum hs1 p + holdsSum hs2 p := by
  unfold holdsSum
  rw [List.filter_append, List.map_append, List.sum_append]

theorem holdsSum_congr (hs : List EventResource) (p q : EventResource → Bool)
    (h : ∀ x ∈ hs, p x = q x) : holdsSum hs p = holdsSum hs q := by
  induction hs with
  | nil => rfl
  | cons a hs ih =>
    rw [holdsSum_cons, holdsSum_cons, h a (List.mem_cons_self a hs),
        ih (fun x hx => h x (List.mem_cons_of_mem a hx))]

theorem holdsSum_split (hs : List EventResource) (p q : EventResource → Bool) :
    holdsSum hs p
      = holdsSum hs (fun h => p h && q h) + holdsSum hs (fun h => p h && !q h) := by
  induction hs with
  | nil => rfl
  | cons a hs ih =>
    rw [holdsSum_cons, holdsSum_cons, holdsSum_cons, ih]
    cases hp : p a <;> cases hq : q a <;> simp [hp, hq] <;> omega

theorem holdsSum_filter (hs : List EventResource) (q p : EventResource → Bool) :
    holdsSum (hs.filter q) p = holdsSum hs (fun h => q h && p h) := by
  induction hs with
  | nil => rfl
  | cons a hs ih =>
    cases hq : q a
    · simp only [List.filter_cons, hq, Bool.false_eq_true, if_false]
      rw [ih, holdsSum_cons]
      simp [hq]
    · simp only [List.filter_cons, hq, if_true]
      rw [holdsSum_cons, holdsSum_cons, ih]
      simp [hq]

def reqsSum (reqs : List (Int × Int)) (rid : Int) : Int :=
  ((reqs.filter (fun q => q.1 == rid)).map (fun q => q.2)).sum

theorem reqsSum_cons (a : Int × Int) (reqs : List (Int × Int)) (rid : Int) :
    reqsSum (a :: reqs) rid = (if a.1 == rid then a.2 else 0) + reqsSum reqs rid := by
  unfold reqsSum
  cases ha : (a.1 == rid) <;> simp [List.filter_cons, ha]

theorem holdsSum_map_mk (l : List (Int × Int)) (eid : Int) (p : EventResource → Bool) :
    holdsSum (l.map (fun q => (⟨eid, q.1, q.2⟩ : EventResource))) p
      = ((l.filter (fun q => p ⟨eid, q.1, q.2⟩)).map (fun q => q.2)).sum := by
  induction l with
  | nil => rfl
  | cons a l ih =>
    rw [List.map_cons, holdsSum_cons, List.filter_cons]
    cases hp : p ⟨eid, a.1, a.2⟩ <;> simp [hp, ih]

theorem map_self_of_eq {α : Type} (l : List α) (f : α → α) (h : ∀ a ∈ l, f a = a) :
    l.map f = l := by
  induction l with
  | nil => rfl
  | cons a l ih =>
    rw [List.map_cons, h a (by simp), ih (fun x hx => h x (by simp [hx]))]

theorem admit_fold (eid : Int) (reqs : List (Int × Int)) (s0 : State) :
    reqs.foldl (fun st p =>
      { st with
        event_resources := st.event_resources ++ [⟨eid, p.1, p.2⟩],
        resources := debitOne st.resources p.1 p.2 }) s0
    = { s0 with
        event_resources :=
          s0.event_resources ++ reqs.map (fun p => (⟨eid, p.1, p.2⟩ : EventResource)),
        resources := s0.resources.map (fun r =>
          { r with available_quantity := r.available_quantity - reqsSum reqs r.id }) } := by
  induction reqs generalizing s0 with
  | nil =>
    cases s0
    simp only [List.foldl_nil, List.map_nil, List.append_nil, State.mk.injEq, and_true,
      true_and]
    exact (map_self_of_eq _ _ (fun r _ => by cases r; simp [reqsSum])).symm
  | cons p reqs ih =>
    rw [List.foldl_cons, ih]
    unfold debitOne
    rw [List.map_map]
    cases s0
    simp only [State.mk.injEq, and_true, true_and, List.map_cons]
    constructor
    · refine List.map_congr_left ?_
      intro r _
      by_cases hid : r.id = p.1
      · simp only [Function.comp, if_pos (by simp [hid] : (r.id == p.1) = true)]
        cases r
        rw [reqsSum_cons]
        simp only [Resource.mk.injEq, true_and]
        simp_all
        omega
      · simp only [Function.comp, if_neg (by simp [hid] : ¬ ((r.id == p.1) = true))]
        cases r
        rw [reqsSum_cons]
        simp only [Resource.mk.injEq, true_and]
        simp_all
        omega
    · simp [List.append_assoc]

theorem admitState_eq (f : SubmitForm) (uid : Int) (s : State) (reqs : List (Int × Int)) :
    admitState f uid s reqs = { s with
      events := s.events ++ [mkNewEvent f uid s],
      event_resources := s.event_resources
        ++ reqs.map (fun p => (⟨s.next_event_id, p.1, p.2⟩ : EventResource)),
      resources := s.resources.map (fun r =>
        { r with available_quantity := r.available_quantity - reqsSum reqs r.id }),
      next_event_id := s.next_event_id + 1,
      notifications := s.notifications
        ++ (match s.users.find? (fun u => u.role == "hod") with
            | some h => [⟨h.id, Msg.needsApproval f.title⟩]
            | none => []) } := by
  unfold admitState
  dsimp only
  rw [admit_fold]
  cases hh : s.users.find? (fun u => u.role == "hod") <;> cases s <;> simp_all

theorem creditHolds_eq (rs : List Resource) (hs : List EventResource) :
    creditHolds rs hs = rs.map (fun r =>
      { r with available_quantity :=
          r.available_quantity + holdsSum hs (fun h => h.resource_id == r.id) }) := by
  induction hs generalizing rs with
  | nil =>
    show rs = _
    refine (map_self_of_eq rs _ ?_).symm
    intro r _
    cases r
    simp [holdsSum]
  | cons h hs ih =>
    show creditHolds (creditOne rs h.resource_id h.quantity_requested) hs = _
    rw [ih]
    unfold creditOne
    rw [List.map_map]
    refine List.map_congr_left ?_
    intro r _
    by_cases hid : r.id = h.resource_id
    · simp only [Function.comp, if_pos (by simp [hid] : (r.id == h.resource_id) = true)]
      cases r
      rw [holdsSum_cons]
      simp only [Resource.mk.injEq, true_and]
      simp_all
      omega
    · simp only [Function.comp, if_neg (by simp [hid] : ¬ ((r.id == h.resource_id) = true))]
      cases r
      rw [holdsSum_cons]
      simp only [Resource.mk.injEq, true_and]
      simp_all
      omega

/-! ### The approval chain, written out per role -/

/-- Next status reached by a successful approval of role `r`, one step
along the chain hod → dean → head → approved. -/
def chainNext : ApproverRole → String
  | .hod => "pending_dean"
  | .dean => "pending_head"
  | .head => "approved"

/-- The `current_approver_role` value written by a successful approval
of role `r` (empty once fully approved). -/
def chainRole : ApproverRole → String
  | .hod => "dean"
  | .dean => "head"
  | .head => ""

theorem flowNext_role (r : ApproverRole) :
    flowNext ("pending_" ++ r.toStr) = some (chainNext r) := by
  cases r <;> rfl

theorem flowRole_chain (r : ApproverRole) :
    (flowRole (chainNext r)).getD "" = chainRole r := by
  cases r <;> rfl

theorem chainNext_not_terminal (r : ApproverRole) :
    ((chainNext r == "rejected" || chainNext r == "completed")) = false := by
  cases r <;> rfl

theorem pending_not_terminal (r : ApproverRole) :
    (("pending_" ++ r.toStr == "rejected" || "pending_" ++ r.toStr == "completed")) = false := by
  cases r <;> rfl

/-! ### Success-shape lemmas for the transition handlers -/

theorem approveEvent_ok_elim (r : ApproverRole) (uid eid : Int) (c : String) (s s2 : State)
    (h : approveEvent r uid eid c s = .ok s2) :
    ∃ ev, findEvent s eid = some ev ∧ ev.status = "pending_" ++ r.toStr ∧
      s2.events = updateEventRow s.events eid (statusRoleUpd (chainNext r) (chainRole r)) ∧
      s2.resources = s.resources ∧
      s2.event_resources = s.event_resources ∧
      s2.approvals = s.approvals ++ [⟨eid, uid, r.toStr, "approved", c⟩] ∧
      s2.venues = s.venues ∧ s2.users = s.users ∧
      s2.next_event_id = s.next_event_id := by
  unfold approveEvent at h
  split at h
  · exact Except.noConfusion h
  next ev hf =>
    split at h
    · exact Except.noConfusion h
    next hne =>
      have hst : ev.status = "pending_" ++ r.toStr := by
        simpa using hne
      rw [hst, flowNext_role r] at h
      refine ⟨ev, hf, hst, ?_⟩
      dsimp only at h
      rw [flowRole_chain r] at h
      split at h
      · cases h
        simp
      · split at h <;> cases h <;> simp

theorem rejectEvent_ok_elim (r : ApproverRole) (uid eid : Int) (reason : String) (s s2 : State)
    (h : rejectEvent r uid eid reason s = .ok s2) :
    ∃ ev, findEvent s eid = some ev ∧ ev.status = "pending_" ++ r.toStr ∧ reason ≠ "" ∧
      s2.events = updateEventRow s.events eid (rejectUpd reason) ∧
      s2.resources = creditHolds s.resources (heldBy s eid) ∧
      s2.event_resources = s.event_resources ∧
      s2.approvals = s.approvals ++ [⟨eid, uid, r.toStr, "rejected", reason⟩] ∧
      s2.venues = s.venues ∧ s2.users = s.users ∧
      s2.next_event_id = s.next_event_id ∧
      s2.notifications = s.notifications
        ++ [⟨ev.created_by, .wasRejected ev.title r.toStr reason⟩] := by
  unfold rejectEvent at h
  split at h
  · exact Except.noConfusion h
  next ev hf =>
    split at h
    · exact Except.noConfusion h
    next hne =>
      have hst : ev.status = "pending_" ++ r.toStr := by
        simpa using hne
      split at h
      · exact Except.noConfusion h
      next hreason =>
        have hr : reason ≠ "" := by
          simpa using hreason
        dsimp only at h
        cases h
        exact ⟨ev, hf, hst, hr, by simp [heldBy]⟩

theorem completeEvent_ok_elim (uid eid : Int) (s s2 : State)
    (h : completeEvent uid eid s = .ok s2) :
    ∃ ev, findEvent s eid = some ev ∧ ev.status = "approved" ∧ ev.created_by = uid ∧
      s2.events = updateEventRow s.events eid (statusRoleUpd "completed" "") ∧
      s2.resources = creditHolds s.resources (heldBy s eid) ∧
      s2.event_resources = s.event_resources ∧
      s2.approvals = s.approvals ∧
      s2.notifications = s.notifications ∧
      s2.venues = s.venues ∧ s2.users = s.users ∧
      s2.next_event_id = s.next_event_id := by
  unfold completeEvent at h
  split at h
  · exact Except.noConfusion h
  next ev hf =>
    split at h
    · exact Except.noConfusion h
    next hguard =>
      have hg : ev.status = "approved" ∧ ev.created_by = uid := by
        constructor
        · by_contra hc
          simp [hc] at hguard
        · by_contra hc
          simp [hc] at hguard
      dsimp only at h
      cases h
      exact ⟨ev, hf, hg.1, hg.2, by simp [heldBy]⟩

theorem newEvent_ok_elim (f : SubmitForm) (uid : Int) (s s2 : State)
    (h : newEvent f uid s = .ok s2) :
    basicsMissing f = false ∧
    (∃ v, findVenue s f.venue_id = some v ∧ ¬ f.expected_attendees > v.capacity) ∧
    conflictQuery s f.venue_id f.event_date f.start_time f.end_time = none ∧
    ∃ reqs, checkResources s.resources f.req = .ok reqs ∧ s2 = admitState f uid s reqs := by
  unfold newEvent at h
  split at h
  · exact Except.noConfusion h
  next hb =>
    split at h
    · exact Except.noConfusion h
    next v hv =>
      split at h
      · exact Except.noConfusion h
      next hcap =>
        split at h
        · exact Except.noConfusion h
        next hq =>
          split at h
          · exact Except.noConfusion h
          next reqs hr =>
            cases h
            exact ⟨by simpa using hb, ⟨v, hv, hcap⟩, hq, reqs, hr, rfl⟩

/-! ### Preservation of the ledger invariant -/

theorem outstandingE_found (es : List Event) (eid : Int) (ev : Event)
    (hfind : List.find? (fun e => e.id == eid) es = some ev) :
    outstandingE es eid = !(ev.status == "rejected" || ev.status == "completed") := by
  unfold outstandingE
  rw [hfind]

theorem inv_release (es : List Event) (hs : List EventResource) (rs : List Resource)
    (eid : Int) (ev : Event) (u : Event → Event)
    (hu : ∀ e, (u e).id = e.id)
    (hfind : List.find? (fun e => e.id == eid) es = some ev)
    (hout : (ev.status == "rejected" || ev.status == "completed") = false)
    (hterm : ((u ev).status == "rejected" || (u ev).status == "completed") = true)
    (hinv : ∀ r ∈ rs,
      r.available_quantity + outstandingHoldsE es hs r.id = r.total_quantity) :
    ∀ r ∈ creditHolds rs (hs.filter (fun h => h.event_id == eid)),
      r.available_quantity + outstandingHoldsE (updateEventRow es eid u) hs r.id
        = r.total_quantity := by
  intro r2 hr2
  rw [creditHolds_eq] at hr2
  obtain ⟨r, hr, rfl⟩ := List.mem_map.mp hr2
  dsimp only
  have hsum : outstandingHoldsE (updateEventRow es eid u) hs r.id
      = holdsSum hs (fun h =>
          (h.resource_id == r.id && outstandingE es h.event_id) && !(h.event_id == eid)) := by
    unfold outstandingHoldsE
    refine holdsSum_congr _ _ _ ?_
    intro x hx
    by_cases hxe : x.event_id = eid
    · rw [hxe, outstandingE_update_eq es eid u ev hu hfind, hterm]
      simp
    · rw [outstandingE_update_ne es eid x.event_id u hu hxe]
      simp [hxe]
  have hold : outstandingHoldsE es hs r.id
      = holdsSum hs (fun h =>
            (h.resource_id == r.id && outstandingE es h.event_id) && (h.event_id == eid))
        + holdsSum hs (fun h =>
            (h.resource_id == r.id && outstandingE es h.event_id) && !(h.event_id == eid)) :=
    holdsSum_split hs _ _
  have hcredit : holdsSum (hs.filter (fun h => h.event_id == eid))
        (fun h => h.resource_id == r.id)
      = holdsSum hs (fun h =>
          (h.resource_id == r.id && outstandingE es h.event_id) && (h.event_id == eid)) := by
    rw [holdsSum_filter]
    refine holdsSum_congr _ _ _ ?_
    intro x hx
    by_cases hxe : x.event_id = eid
    · have hT : outstandingE es eid = true := by
        rw [outstandingE_found es eid ev hfind, hout]
        rfl
      rw [hxe]
      simp [hT, Bool.and_comm]
    · have h1 : (x.event_id == eid) = false := by simp [hxe]
      rw [h1]
      simp
  have harith := hinv r hr
  rw [hold] at harith
  rw [hsum, hcredit]
  omega

theorem inv_update_keep (es : List Event) (hs : List EventResource) (rs : List Resource)
    (eid : Int) (ev : Event) (u : Event → Event)
    (hu : ∀ e, (u e).id = e.id)
    (hfind : List.find? (fun e => e.id == eid) es = some ev)
    (hsame : ((u ev).status == "rejected" || (u ev).status == "completed")
      = (ev.status == "rejected" || ev.status == "completed"))
    (hinv : ∀ r ∈ rs,
      r.available_quantity + outstandingHoldsE es hs r.id = r.total_quantity) :
    ∀ r ∈ rs,
      r.available_quantity + outstandingHoldsE (updateEventRow es eid u) hs r.id
        = r.total_quantity := by
  intro r hr
  have hkeep : outstandingHoldsE (updateEventRow es eid u) hs r.id
      = outstandingHoldsE es hs r.id := by
    unfold outstandingHoldsE
    refine holdsSum_congr _ _ _ ?_
    intro x hx
    by_cases hxe : x.event_id = eid
    · rw [hxe, outstandingE_update_eq es eid u ev hu hfind, hsame,
          outstandingE_found es eid ev hfind]
    · rw [outstandingE_update_ne es eid x.event_id u hu hxe]
  rw [hkeep]
  exact hinv r hr

theorem inv_admitState (f : SubmitForm) (uid : Int) (s : State) (reqs : List (Int × Int))
    (hw : WellFormed s) (hinv : InventoryInv s) :
    InventoryInv (admitState f uid s reqs) := by
  rw [admitState_eq]
  intro r2 hr2
  dsimp only at hr2 ⊢
  obtain ⟨r, hr, rfl⟩ := List.mem_map.mp hr2
  dsimp only
  have hidlt : ∀ e ∈ s.events, e.id ≠ (mkNewEvent f uid s).id := by
    intro e he
    have := hw.1 e he
    show e.id ≠ s.next_event_id
    omega
  have hnew_out :
      outstandingE (s.events ++ [mkNewEvent f uid s]) s.next_event_id = true := by
    have h1 := outstandingE_append_new s.events (mkNewEvent f uid s) hidlt
    exact h1
  have hsplit : outstandingHoldsE (s.events ++ [mkNewEvent f uid s])
        (s.event_resources
          ++ reqs.map (fun p => (⟨s.next_event_id, p.1, p.2⟩ : EventResource))) r.id
      = holdsSum s.event_resources
          (fun h => h.resource_id == r.id
            && outstandingE (s.events ++ [mkNewEvent f uid s]) h.event_id)
        + holdsSum (reqs.map (fun p => (⟨s.next_event_id, p.1, p.2⟩ : EventResource)))
          (fun h => h.resource_id == r.id
            && outstandingE (s.events ++ [mkNewEvent f uid s]) h.event_id) := by
    unfold outstandingHoldsE
    rw [holdsSum_append]
  have hold_eq : holdsSum s.event_resources
        (fun h => h.resource_id == r.id
          && outstandingE (s.events ++ [mkNewEvent f uid s]) h.event_id)
      = outstandingHoldsE s.events s.event_resources r.id := by
    unfold outstandingHoldsE
    refine holdsSum_congr _ _ _ ?_
    intro x hx
    have hxlt := hw.2 x hx
    rw [outstandingE_append_old s.events (mkNewEvent f uid s) x.event_id
      (by show x.event_id ≠ s.next_event_id; omega)]
  have hnew_eq : holdsSum (reqs.map (fun p => (⟨s.next_event_id, p.1, p.2⟩ : EventResource)))
        (fun h => h.resource_id == r.id
          && outstandingE (s.events ++ [mkNewEvent f uid s]) h.event_id)
      = reqsSum reqs r.id := by
    rw [holdsSum_map_mk]
    unfold reqsSum
    have hfc : ∀ q ∈ reqs,
        ((fun q : Int × Int => (q.1 == r.id
          && outstandingE (s.events ++ [mkNewEvent f uid s]) s.next_event_id)) q)
        = ((fun q : Int × Int => q.1 == r.id) q) := by
      intro q hq
      rw [hnew_out]
      simp
    rw [List.filter_congr hfc]
  have harith := hinv r hr
  rw [hsplit, hold_eq, hnew_eq]
  omega

theorem wf_admitState (f : SubmitForm) (uid : Int) (s : State) (reqs : List (Int × Int))
    (hw : WellFormed s) : WellFormed (admitState f uid s reqs) := by
  rw [admitState_eq]
  constructor
  · intro e he
    dsimp only at he ⊢
    rcases List.mem_append.mp he with h1 | h2
    · have := hw.1 e h1
      omega
    · have : e = mkNewEvent f uid s := by simpa using h2
      rw [this]
      show s.next_event_id < s.next_event_id + 1
      omega
  · intro h hh
    dsimp only at hh ⊢
    rcases List.mem_append.mp hh with h1 | h2
    · have := hw.2 h h1
      omega
    · obtain ⟨p, hp, rfl⟩ := List.mem_map.mp h2
      show s.next_event_id < s.next_event_id + 1
      omega

theorem wf_of_update (s s2 : State) (eid : Int) (u : Event → Event)
    (hu : ∀ e, (u e).id = e.id)
    (he : s2.events = updateEventRow s.events eid u)
    (hh : s2.event_resources = s.event_resources)
    (hn : s2.next_event_id = s.next_event_id)
    (hw : WellFormed s) : WellFormed s2 := by
  constructor
  · intro e2 hm
    rw [he] at hm
    obtain ⟨e, hemem, heid⟩ := updateEventRow_keeps_ids s.events eid u hu e2 hm
    rw [hn, heid]
    exact hw.1 e hemem
  · intro h hm
    rw [hh] at hm
    rw [hn]
    exact hw.2 h hm

theorem step_preserves (s : State) (op : Op) (hw : WellFormed s) (hinv : InventoryInv s) :
    WellFormed (stepTotal s op) ∧ InventoryInv (stepTotal s op) := by
  cases op with
  | submit f uid =>
    cases h : newEvent f uid s with
    | error e =>
      simp only [stepTotal, h]
      exact ⟨hw, hinv⟩
    | ok s2 =>
      simp only [stepTotal, h]
      obtain ⟨-, -, -, reqs, -, rfl⟩ := newEvent_ok_elim f uid s s2 h
      exact ⟨wf_admitState f uid s reqs hw, inv_admitState f uid s reqs hw hinv⟩
  | approve r uid eid c =>
    cases h : approveEvent r uid eid c s with
    | error e =>
      simp only [stepTotal, h]
      exact ⟨hw, hinv⟩
    | ok s2 =>
      simp only [stepTotal, h]
      obtain ⟨ev, hf, hst, hev, hres, hhds, -, -, -, hnext⟩ :=
        approveEvent_ok_elim r uid eid c s s2 h
      constructor
      · exact wf_of_update s s2 eid (statusRoleUpd (chainNext r) (chainRole r))
          (statusRoleUpd_id _ _) hev hhds hnext hw
      · unfold InventoryInv
        rw [hev, hres, hhds]
        refine inv_update_keep s.events s.event_resources s.resources eid ev
          (statusRoleUpd (chainNext r) (chainRole r))
          (statusRoleUpd_id _ _) hf ?_ hinv
        rw [hst]
        exact (chainNext_not_terminal r).trans (pending_not_terminal r).symm
  | reject r uid eid reason =>
    cases h : rejectEvent r uid eid reason s with
    | error e =>
      simp only [stepTotal, h]
      exact ⟨hw, hinv⟩
    | ok s2 =>
      simp only [stepTotal, h]
      obtain ⟨ev, hf, hst, -, hev, hres, hhds, -, -, -, hnext, -⟩ :=
        rejectEvent_ok_elim r uid eid reason s s2 h
      constructor
      · exact wf_of_update s s2 eid (rejectUpd reason)
          (rejectUpd_id _) hev hhds hnext hw
      · unfold InventoryInv
        rw [hev, hres, hhds]
        refine inv_release s.events s.event_resources s.resources eid ev
          (rejectUpd reason)
          (rejectUpd_id _) hf ?_ rfl hinv
        rw [hst]
        exact pending_not_terminal r
  | complete uid eid =>
    cases h : completeEvent uid eid s with
    | error e =>
      simp only [stepTotal, h]
      exact ⟨hw, hinv⟩
    | ok s2 =>
      simp only [stepTotal, h]
      obtain ⟨ev, hf, hst, -, hev, hres, hhds, -, -, -, -, hnext⟩ :=
        completeEvent_ok_elim uid eid s s2 h
      constructor
      · exact wf_of_update s s2 eid (statusRoleUpd "completed" "")
          (statusRoleUpd_id _ _) hev hhds hnext hw
      · unfold InventoryInv
        rw [hev, hres, hhds]
        refine inv_release s.events s.event_resources s.resources eid ev
          (statusRoleUpd "completed" "")
          (statusRoleUpd_id _ _) hf ?_ rfl hinv
        rw [hst]
        rfl

theorem run_preserves (s : State) (ops : List Op)
    (hw : WellFormed s) (hinv : InventoryInv s) :
    WellFormed (run s ops) ∧ InventoryInv (run s ops) := by
  induction ops generalizing s with
  | nil => exact ⟨hw, hinv⟩
  | cons op ops ih =>
    obtain ⟨hw2, hinv2⟩ := step_preserves s op hw hinv
    exact ih (stepTotal s op) hw2 hinv2

/-! ### Terminal-status analysis per operation (support for the
release-once property) -/

theorem term_submit (s : State) (f : SubmitForm) (uid : Int) (eid : Int) :
    statusTerminalB (stepTotal s (.submit f uid)) eid = statusTerminalB s eid := by
  cases h : newEvent f uid s with
  | error e => simp [stepTotal, h]
  | ok s2 =>
    simp only [stepTotal, h]
    obtain ⟨-, -, -, reqs, -, rfl⟩ := newEvent_ok_elim f uid s s2 h
    rw [admitState_eq]
    unfold statusTerminalB findEvent
    dsimp only
    rw [List.find?_append]
    cases hfe : List.find? (fun e => e.id == eid) s.events
    · cases hnew : ((mkNewEvent f uid s).id == eid)
      · simp [Option.or, List.find?, hnew]
      · have hnew2 : (s.next_event_id == eid) = true := hnew
        simp [Option.or, List.find?, hnew2, mkNewEvent]
    · simp [Option.or]

theorem term_approve (s : State) (r : ApproverRole) (uid eid2 : Int) (c : String)
    (eid : Int) :
    statusTerminalB (stepTotal s (.approve r uid eid2 c)) eid = statusTerminalB s eid := by
  cases h : approveEvent r uid eid2 c s with
  | error e => simp [stepTotal, h]
  | ok s2 =>
    simp only [stepTotal, h]
    obtain ⟨ev, hf, hst, hev, -, -, -, -, -, -⟩ := approveEvent_ok_elim r uid eid2 c s s2 h
    unfold statusTerminalB findEvent
    rw [hev]
    unfold findEvent at hf
    by_cases hx : eid = eid2
    · subst hx
      rw [find?_update_eq s.events eid (statusRoleUpd (chainNext r) (chainRole r)) ev
        (statusRoleUpd_id _ _) hf, hf]
      dsimp only [statusRoleUpd]
      rw [hst]
      exact (chainNext_not_terminal r).trans (pending_not_terminal r).symm
    · rw [find?_update_ne s.events eid2 eid (statusRoleUpd (chainNext r) (chainRole r))
        (statusRoleUpd_id _ _) hx]

theorem term_reject_other (s : State) (r : ApproverRole) (uid eid2 : Int) (reason : String)
    (eid : Int) (hx : eid ≠ eid2) :
    statusTerminalB (stepTotal s (.reject r uid eid2 reason)) eid = statusTerminalB s eid := by
  cases h : rejectEvent r uid eid2 reason s with
  | error e => simp [stepTotal, h]
  | ok s2 =>
    simp only [stepTotal, h]
    obtain ⟨ev, hf, hst, -, hev, -, -, -, -, -, -, -⟩ :=
      rejectEvent_ok_elim r uid eid2 reason s s2 h
    unfold statusTerminalB findEvent
    rw [hev, find?_update_ne s.events eid2 eid (rejectUpd reason) (rejectUpd_id _) hx]

theorem term_complete_other (s : State) (uid eid2 eid : Int) (hx : eid ≠ eid2) :
    statusTerminalB (stepTotal s (.complete uid eid2)) eid = statusTerminalB s eid := by
  cases h : completeEvent uid eid2 s with
  | error e => simp [stepTotal, h]
  | ok s2 =>
    simp only [stepTotal, h]
    obtain ⟨ev, hf, hst, -, hev, -, -, -, -, -, -⟩ := completeEvent_ok_elim uid eid2 s s2 h
    unfold statusTerminalB findEvent
    rw [hev, find?_update_ne s.events eid2 eid (statusRoleUpd "completed" "")
      (statusRoleUpd_id _ _) hx]

theorem releases_target (s : State) (op : Op) (eid : Int)
    (h : releases s op eid = true) :
    statusTerminalB s eid = false ∧ statusTerminalB (stepTotal s op) eid = true := by
  cases op with
  | submit f uid => exact absurd h (by simp [releases])
  | approve r uid e2 c => exact absurd h (by simp [releases])
  | reject r uid e2 reason =>
    unfold releases at h
    rw [Bool.and_eq_true] at h
    obtain ⟨he2, hok⟩ := h
    have he2x : e2 = eid := by simpa using he2
    subst he2x
    cases hr : rejectEvent r uid e2 reason s with
    | error e => rw [hr] at hok; exact absurd hok (by simp [isOkE])
    | ok s2 =>
      obtain ⟨ev, hf, hst, -, hev, -, -, -, -, -, -, -⟩ :=
        rejectEvent_ok_elim r uid e2 reason s s2 hr
      constructor
      · unfold statusTerminalB
        rw [hf]
        dsimp only
        rw [hst]
        exact pending_not_terminal r
      · simp only [stepTotal, hr]
        unfold statusTerminalB findEvent
        rw [hev]
        unfold findEvent at hf
        rw [find?_update_eq s.events e2 (rejectUpd reason) ev (rejectUpd_id _) hf]
        rfl
  | complete uid e2 =>
    unfold releases at h
    rw [Bool.and_eq_true] at h
    obtain ⟨he2, hok⟩ := h
    have he2x : e2 = eid := by simpa using he2
    subst he2x
    cases hr : completeEvent uid e2 s with
    | error e => rw [hr] at hok; exact absurd hok (by simp [isOkE])
    | ok s2 =>
      obtain ⟨ev, hf, hst, -, hev, -, -, -, -, -, -⟩ := completeEvent_ok_elim uid e2 s s2 hr
      constructor
      · unfold statusTerminalB
        rw [hf]
        dsimp only
        rw [hst]
        rfl
      · simp only [stepTotal, hr]
        unfold statusTerminalB findEvent
        rw [hev]
        unfold findEvent at hf
        rw [find?_update_eq s.events e2 (statusRoleUpd "completed" "") ev
          (statusRoleUpd_id _ _) hf]
        rfl

theorem terminal_absorbing (s : State) (op : Op) (eid : Int)
    (h : statusTerminalB s eid = true) :
    statusTerminalB (stepTotal s op) eid = true := by
  cases op with
  | submit f uid => rw [term_submit]; exact h
  | approve r uid e2 c => rw [term_approve]; exact h
  | reject r uid e2 reason =>
    by_cases hx : eid = e2
    · subst hx
      cases hr : rejectEvent r uid eid reason s with
      | error e => simpa [stepTotal, hr] using h
      | ok s2 =>
        obtain ⟨ev, hf, hst, -, -, -, -, -, -, -, -, -⟩ :=
          rejectEvent_ok_elim r uid eid reason s s2 hr
        unfold statusTerminalB at h
        rw [hf] at h
        dsimp only at h
        rw [hst, pending_not_terminal r] at h
        cases h
    · rw [term_reject_other s r uid e2 reason eid hx]; exact h
  | complete uid e2 =>
    by_cases hx : eid = e2
    · subst hx
      cases hr : completeEvent uid eid s with
      | error e => simpa [stepTotal, hr] using h
      | ok s2 =>
        obtain ⟨ev, hf, hst, -, -, -, -, -, -, -, -⟩ := completeEvent_ok_elim uid eid s s2 hr
        unfold statusTerminalB at h
        rw [hf] at h
        dsimp only at h
        rw [hst] at h
        cases h
    · rw [term_complete_other s uid e2 eid hx]; exact h

theorem releases_iff_transition (s : State) (op : Op) (eid : Int) :
    releases s op eid = true ↔
      (statusTerminalB s eid = false ∧ statusTerminalB (stepTotal s op) eid = true) := by
  constructor
  · exact releases_target s op eid
  · intro ⟨hbefore, hafter⟩
    cases op with
    | submit f uid =>
      rw [term_submit, hbefore] at hafter
      cases hafter
    | approve r uid e2 c =>
      rw [term_approve, hbefore] at hafter
      cases hafter
    | reject r uid e2 reason =>
      by_cases hx : eid = e2
      · subst hx
        cases hr : rejectEvent r uid eid reason s with
        | error e =>
          rw [show stepTotal s (.reject r uid eid reason) = s by simp [stepTotal, hr],
            hbefore] at hafter
          cases hafter
        | ok s2 => simp [releases, isOkE, hr]
      · rw [term_reject_other s r uid e2 reason eid hx, hbefore] at hafter
        cases hafter
    | complete uid e2 =>
      by_cases hx : eid = e2
      · subst hx
        cases hr : completeEvent uid eid s with
        | error e =>
          rw [show stepTotal s (.complete uid eid) = s by simp [stepTotal, hr],
            hbefore] at hafter
          cases hafter
        | ok s2 => simp [releases, isOkE, hr]
      · rw [term_complete_other s uid e2 eid hx, hbefore] at hafter
        cases hafter

theorem releaseCount_zero_of_terminal (s : State) (ops : List Op) (eid : Int)
    (h : statusTerminalB s eid = true) : releaseCount s ops eid = 0 := by
  induction ops generalizing s with
  | nil => rfl
  | cons op ops ih =>
    unfold releaseCount
    have hrel : releases s op eid = false := by
      cases hr : releases s op eid
      · rfl
      · have := (releases_target s op eid hr).1
        rw [h] at this
        cases this
    rw [hrel]
    simp only [if_false, Bool.false_eq_true, Nat.zero_add]
    exact ih (stepTotal s op) (terminal_absorbing s op eid h)

theorem releaseCount_le_one (s : State) (ops : List Op) (eid : Int) :
    releaseCount s ops eid ≤ 1 := by
  induction ops generalizing s with
  | nil => exact Nat.zero_le 1
  | cons op ops ih =>
    unfold releaseCount
    cases hrel : releases s op eid
    · simp only [Bool.false_eq_true, if_false, Nat.zero_add]
      exact ih (stepTotal s op)
    · have hterm := (releases_target s op eid hrel).2
      rw [releaseCount_zero_of_terminal (stepTotal s op) ops eid hterm]
      simp

theorem approve_resources_const (s : State) (r : ApproverRole) (uid e2 : Int) (c : String) :
    (stepTotal s (.approve r uid e2 c)).resources = s.resources := by
  cases h : approveEvent r uid e2 c s with
  | error e => simp [stepTotal, h]
  | ok s2 =>
    simp only [stepTotal, h]
    obtain ⟨-, -, -, -, hres, -⟩ := approveEvent_ok_elim r uid e2 c s s2 h
    exact hres

/-! ### Concrete demonstration store (used to instantiate theorems) -/

/-- A small concrete store mirroring the seed data of database.py. -/
def demoState : State :=
  { users := [⟨1, "coordinator"⟩, ⟨2, "hod"⟩, ⟨3, "dean"⟩, ⟨4, "head"⟩],
    venues := [⟨1, "Main Auditorium", 500, "Block A"⟩, ⟨2, "Conference Room", 30, "Block C"⟩],
    resources := [⟨1, "Projector", 5, 5⟩, ⟨2, "Microphone", 10, 10⟩],
    events := [], event_resources := [], approvals := [], notifications := [],
    next_event_id := 1 }

/-- A concrete valid submission against `demoState`. -/
def demoForm : SubmitForm :=
  { title := "Tech Fest", description := "", event_date := "2024-05-01",
    start_time := "10:00", end_time := "12:00", expected_attendees := 100,
    venue_id := 1, req := fun i => if i == 1 then 2 else 0 }

/-! ### The claims -/

/-- Claim C1: for every resource and after every completed operation
(booking submission, approve, reject, complete), starting from any
well-formed store satisfying the ledger equation, the resource's
available quantity plus the outstanding holds on it equals its total
quantity. -/
theorem C1_ledger_invariant (s : State) (ops : List Op)
    (hw : WellFormed s) (hinv : InventoryInv s) :
    InventoryInv (run s ops) :=
  (run_preserves s ops hw hinv).2

theorem C1_ledger_invariant_witness :
    WellFormed demoState ∧ InventoryInv demoState ∧
      InventoryInv (run demoState
        [.submit demoForm 1, .approve .hod 2 1 "ok", .reject .dean 3 1 "no"]) :=
  ⟨by decide, by decide,
    C1_ledger_invariant demoState
      [.submit demoForm 1, .approve .hod 2 1 "ok", .reject .dean 3 1 "no"]
      (by decide) (by decide)⟩

/-- Claim C2: over any sequence of operations a booking's holds are
credited back at most once; the release path runs exactly at the
booking's first transition into rejected or completed; and approve never
changes any available quantity. -/
theorem C2_release_exactly_once (s : State) (eid : Int) :
    (∀ ops, releaseCount s ops eid ≤ 1) ∧
    (∀ op, releases s op eid = true ↔
      (statusTerminalB s eid = false ∧ statusTerminalB (stepTotal s op) eid = true)) ∧
    (∀ r uid e2 c, (stepTotal s (.approve r uid e2 c)).resources = s.resources) :=
  ⟨fun ops => releaseCount_le_one s ops eid,
   fun op => releases_iff_transition s op eid,
   fun r uid e2 c => approve_resources_const s r uid e2 c⟩

/-- The store after submitting `demoForm` (one pending booking holding
two projectors). -/
def demoState1 : State := stepTotal demoState (.submit demoForm 1)

/-- The booking row created by that submission. -/
def demoEvent1 : Event :=
  ⟨1, "Tech Fest", "", "2024-05-01", "10:00", "12:00", 100, 1, "pending_hod", "hod", 1, ""⟩

/-- The store after the full hod → dean → head approval chain. -/
def demoState2 : State :=
  run demoState1 [.approve .hod 2 1 "ok", .approve .dean 3 1 "ok", .approve .head 4 1 ""]

/-- Claim C6: for a booking in a pending state, a successful approve by
the matching role appends an approved record, advances exactly one step
along hod → dean → head → approved, sets the approver role to the next
role (empty when approved), and leaves holds and stock untouched. -/
theorem C6_approve_advances (s : State) (r : ApproverRole) (uid eid : Int) (c : String)
    (ev : Event) (hev : findEvent s eid = some ev)
    (hst : ev.status = "pending_" ++ r.toStr) :
    ∃ s2, approveEvent r uid eid c s = .ok s2 ∧
      s2.approvals = s.approvals ++ [⟨eid, uid, r.toStr, "approved", c⟩] ∧
      s2.events = updateEventRow s.events eid (statusRoleUpd (chainNext r) (chainRole r)) ∧
      s2.resources = s.resources ∧
      s2.event_resources = s.event_resources ∧
      (chainNext .hod = "pending_dean" ∧ chainNext .dean = "pending_head" ∧
        chainNext .head = "approved") ∧
      (chainRole .hod = "dean" ∧ chainRole .dean = "head" ∧ chainRole .head = "") ∧
      (chainNext r = "approved" → chainRole r = "") := by
  unfold approveEvent
  rw [hev]
  dsimp only
  rw [if_neg (by simp [hst])]
  rw [hst, flowNext_role r]
  dsimp only
  rw [flowRole_chain r]
  have hchain : (chainNext r = "approved" → chainRole r = "") := by
    cases r <;> simp [chainNext, chainRole]
  split
  · exact ⟨_, rfl, rfl, rfl, rfl, rfl, ⟨rfl, rfl, rfl⟩, ⟨rfl, rfl, rfl⟩, hchain⟩
  · split
    · exact ⟨_, rfl, rfl, rfl, rfl, rfl, ⟨rfl, rfl, rfl⟩, ⟨rfl, rfl, rfl⟩, hchain⟩
    · exact ⟨_, rfl, rfl, rfl, rfl, rfl, ⟨rfl, rfl, rfl⟩, ⟨rfl, rfl, rfl⟩, hchain⟩

theorem C6_approve_advances_witness :
    findEvent demoState1 1 = some demoEvent1 ∧
      demoEvent1.status = "pending_" ++ ApproverRole.toStr .hod ∧
      (∃ s2, approveEvent .hod 2 1 "ok" demoState1 = .ok s2 ∧
        s2.approvals = demoState1.approvals ++ [⟨1, 2, "hod", "approved", "ok"⟩] ∧
        s2.events = updateEventRow demoState1.events 1
          (statusRoleUpd (chainNext .hod) (chainRole .hod)) ∧
        s2.resources = demoState1.resources ∧
        s2.event_resources = demoState1.event_resources ∧
        (chainNext .hod = "pending_dean" ∧ chainNext .dean = "pending_head" ∧
          chainNext .head = "approved") ∧
        (chainRole .hod = "dean" ∧ chainRole .dean = "head" ∧ chainRole .head = "") ∧
        (chainNext .hod = "approved" → chainRole .hod = "")) :=
  ⟨by decide, by decide,
    C6_approve_advances demoState1 .hod 2 1 "ok" demoEvent1 (by decide) (by decide)⟩

/-- Claim C7: for a pending booking and the matching role, reject with an
empty reason fails leaving the store unchanged; with a non-empty reason
it appends a rejected record with the reason, marks the booking rejected
with empty approver role and stored reason, and credits every hold back. -/
theorem C7_reject_semantics (s : State) (r : ApproverRole) (uid eid : Int) (reason : String)
    (ev : Event) (hev : findEvent s eid = some ev)
    (hst : ev.status = "pending_" ++ r.toStr) :
    (reason = "" →
      rejectEvent r uid eid reason s = .error .emptyReason ∧
      stepTotal s (.reject r uid eid reason) = s) ∧
    (reason ≠ "" → ∃ s2, rejectEvent r uid eid reason s = .ok s2 ∧
      s2.approvals = s.approvals ++ [⟨eid, uid, r.toStr, "rejected", reason⟩] ∧
      s2.events = updateEventRow s.events eid (rejectUpd reason) ∧
      s2.event_resources = s.event_resources ∧
      s2.resources = s.resources.map (fun rr =>
        { rr with available_quantity := rr.available_quantity
            + holdsSum (heldBy s eid) (fun h => h.resource_id == rr.id) })) := by
  constructor
  · intro hr
    subst hr
    have herr : rejectEvent r uid eid "" s = .error .emptyReason := by
      unfold rejectEvent
      rw [hev]
      dsimp only
      rw [if_neg (by simp [hst]), if_pos (by simp)]
    exact ⟨herr, by simp [stepTotal, herr]⟩
  · intro hr
    have hok : rejectEvent r uid eid reason s = .ok
        { s with
          approvals := s.approvals ++ [⟨eid, uid, r.toStr, "rejected", reason⟩],
          events := updateEventRow s.events eid (rejectUpd reason),
          resources := creditHolds s.resources (heldBy s eid),
          notifications := s.notifications
            ++ [⟨ev.created_by, .wasRejected ev.title r.toStr reason⟩] } := by
      unfold rejectEvent
      rw [hev]
      dsimp only
      rw [if_neg (by simp [hst]), if_neg (by simp [hr])]
      rfl
    refine ⟨_, hok, rfl, rfl, rfl, ?_⟩
    show creditHolds s.resources (heldBy s eid) = _
    rw [creditHolds_eq]

theorem C7_reject_semantics_witness :
    findEvent demoState1 1 = some demoEvent1 ∧
      demoEvent1.status = "pending_" ++ ApproverRole.toStr .hod ∧
      (rejectEvent .hod 2 1 "" demoState1 = .error .emptyReason ∧
        stepTotal demoState1 (.reject .hod 2 1 "") = demoState1) ∧
      (∃ s2, rejectEvent .hod 2 1 "late" demoState1 = .ok s2 ∧
        s2.approvals = demoState1.approvals ++ [⟨1, 2, "hod", "rejected", "late"⟩] ∧
        s2.events = updateEventRow demoState1.events 1 (rejectUpd "late") ∧
        s2.event_resources = demoState1.event_resources ∧
        s2.resources = demoState1.resources.map (fun rr =>
          { rr with available_quantity := rr.available_quantity
              + holdsSum (heldBy demoState1 1) (fun h => h.resource_id == rr.id) })) :=
  ⟨by decide, by decide,
    (C7_reject_semantics demoState1 .hod 2 1 "" demoEvent1 (by decide) (by decide)).1 rfl,
    (C7_reject_semantics demoState1 .hod 2 1 "late" demoEvent1 (by decide) (by decide)).2
      (by decide)⟩

/-- Claim C8: an approve or reject whose caller role does not match the
booking's current pending state fails with the not-current-approver
error and leaves the whole store unchanged. -/
theorem C8_stale_approver_rejected (s : State) (r : ApproverRole) (uid eid : Int)
    (c reason : String) (ev : Event) (hev : findEvent s eid = some ev)
    (hst : ev.status ≠ "pending_" ++ r.toStr) :
    approveEvent r uid eid c s = .error .notCurrentApprover ∧
    rejectEvent r uid eid reason s = .error .notCurrentApprover ∧
    stepTotal s (.approve r uid eid c) = s ∧
    stepTotal s (.reject r uid eid reason) = s := by
  have ha : approveEvent r uid eid c s = .error .notCurrentApprover := by
    unfold approveEvent
    rw [hev]
    dsimp only
    rw [if_pos (by simp [hst])]
  have hr : rejectEvent r uid eid reason s = .error .notCurrentApprover := by
    unfold rejectEvent
    rw [hev]
    dsimp only
    rw [if_pos (by simp [hst])]
  exact ⟨ha, hr, by simp [stepTotal, ha], by simp [stepTotal, hr]⟩

theorem C8_stale_approver_rejected_witness :
    findEvent demoState1 1 = some demoEvent1 ∧
      demoEvent1.status ≠ "pending_" ++ ApproverRole.toStr .dean ∧
      (approveEvent .dean 3 1 "x" demoState1 = .error .notCurrentApprover ∧
        rejectEvent .dean 3 1 "y" demoState1 = .error .notCurrentApprover ∧
        stepTotal demoState1 (.approve .dean 3 1 "x") = demoState1 ∧
        stepTotal demoState1 (.reject .dean 3 1 "y") = demoState1) :=
  ⟨by decide, by decide,
    C8_stale_approver_rejected demoState1 .dean 3 1 "x" "y" demoEvent1
      (by decide) (by decide)⟩

/-- Claim C10: a successful complete changes only the booking's status
(to completed), its approver role (to empty) and the available stock of
its held resources; it appends no approval record and inserts no
notification, and leaves holds, venues and users untouched. -/
theorem C10_complete_frame (s : State) (uid eid : Int) (ev : Event)
    (hev : findEvent s eid = some ev) (hst : ev.status = "approved")
    (hcb : ev.created_by = uid) :
    ∃ s2, completeEvent uid eid s = .ok s2 ∧
      s2.approvals = s.approvals ∧
      s2.notifications = s.notifications ∧
      s2.event_resources = s.event_resources ∧
      s2.venues = s.venues ∧
      s2.users = s.users ∧
      s2.next_event_id = s.next_event_id ∧
      s2.events = updateEventRow s.events eid (statusRoleUpd "completed" "") ∧
      s2.resources = s.resources.map (fun rr =>
        { rr with available_quantity := rr.available_quantity
            + holdsSum (heldBy s eid) (fun h => h.resource_id == rr.id) }) := by
  have hok : completeEvent uid eid s = .ok
      { s with
        events := updateEventRow s.events eid (statusRoleUpd "completed" ""),
        resources := creditHolds s.resources (heldBy s eid) } := by
    unfold completeEvent
    rw [hev]
    dsimp only
    rw [if_neg (by simp [hst, hcb])]
    rfl
  refine ⟨_, hok, rfl, rfl, rfl, rfl, rfl, rfl, rfl, ?_⟩
  show creditHolds s.resources (heldBy s eid) = _
  rw [creditHolds_eq]

theorem C10_complete_frame_witness :
    findEvent demoState2 1 = some { demoEvent1 with
        status := "approved", current_approver_role := "" } ∧
      ({ demoEvent1 with status := "approved", current_approver_role := "" } : Event).status
        = "approved" ∧
      (∃ s2, completeEvent 1 1 demoState2 = .ok s2 ∧
        s2.approvals = demoState2.approvals ∧
        s2.notifications = demoState2.notifications ∧
        s2.event_resources = demoState2.event_resources ∧
        s2.venues = demoState2.venues ∧
        s2.users = demoState2.users ∧
        s2.next_event_id = demoState2.next_event_id ∧
        s2.events = updateEventRow demoState2.events 1 (statusRoleUpd "completed" "") ∧
        s2.resources = demoState2.resources.map (fun rr =>
          { rr with available_quantity := rr.available_quantity
              + holdsSum (heldBy demoState2 1) (fun h => h.resource_id == rr.id) })) :=
  ⟨by decide, by decide,
    C10_complete_frame demoState2 1 1
      { demoEvent1 with status := "approved", current_approver_role := "" }
      (by decide) (by decide) (by decide)⟩

/-! ### Admission: check order and the conflict test -/

theorem checkResources_no_conflict (rs : List Resource) (req : Int → Int)
    (t a b : String) :
    checkResources rs req ≠ .error (.timeSlotConflict t a b) := by
  induction rs with
  | nil => simp [checkResources]
  | cons r rest ih =>
    unfold checkResources
    dsimp only
    by_cases h : req r.id > 0
    · rw [if_pos h]
      by_cases h2 : req r.id > r.available_quantity
      · rw [if_pos h2]
        simp
      · rw [if_neg h2]
        cases hc : checkResources rest req with
        | error e =>
          intro hcontra
          rw [← hcontra] at ih
          exact ih hc
        | ok more => simp
    · rw [if_neg h]
      exact ih

/-- Claim C5: submission validation runs venue-exists, capacity,
time-slot conflict, then per-resource stock, in that order,
short-circuiting on the first failure; any failure leaves the store
unchanged, and only after every resource check passed is the admission
state (event row, holds and debits) written. -/
theorem C5_check_order (s : State) (f : SubmitForm) (uid : Int) :
    (∀ err, newEvent f uid s = .error err → stepTotal s (.submit f uid) = s) ∧
    (basicsMissing f = true → newEvent f uid s = .error .fieldsMissing) ∧
    (basicsMissing f = false → findVenue s f.venue_id = none →
      newEvent f uid s = .error .venueNotFound) ∧
    (∀ v, basicsMissing f = false → findVenue s f.venue_id = some v →
      f.expected_attendees > v.capacity →
      newEvent f uid s = .error (.capacityExceeded f.expected_attendees v.capacity)) ∧
    (∀ v c, basicsMissing f = false → findVenue s f.venue_id = some v →
      ¬ f.expected_attendees > v.capacity →
      conflictQuery s f.venue_id f.event_date f.start_time f.end_time = some c →
      newEvent f uid s = .error (.timeSlotConflict c.title c.start_time c.end_time)) ∧
    (∀ v err, basicsMissing f = false → findVenue s f.venue_id = some v →
      ¬ f.expected_attendees > v.capacity →
      conflictQuery s f.venue_id f.event_date f.start_time f.end_time = none →
      checkResources s.resources f.req = .error err →
      newEvent f uid s = .error err) ∧
    (∀ v reqs, basicsMissing f = false → findVenue s f.venue_id = some v →
      ¬ f.expected_attendees > v.capacity →
      conflictQuery s f.venue_id f.event_date f.start_time f.end_time = none →
      checkResources s.resources f.req = .ok reqs →
      newEvent f uid s = .ok (admitState f uid s reqs)) := by
  refine ⟨?_, ?_, ?_, ?_, ?_, ?_, ?_⟩
  · intro err herr
    simp [stepTotal, herr]
  · intro hb
    unfold newEvent
    rw [if_pos (by simp [hb])]
  · intro hb hv
    unfold newEvent
    rw [if_neg (by simp [hb]), hv]
  · intro v hb hv hcap
    unfold newEvent
    rw [if_neg (by simp [hb]), hv]
    dsimp only
    rw [if_pos hcap]
  · intro v c hb hv hcap hc
    unfold newEvent
    rw [if_neg (by simp [hb]), hv]
    dsimp only
    rw [if_neg hcap, hc]
  · intro v err hb hv hcap hc hr
    unfold newEvent
    rw [if_neg (by simp [hb]), hv]
    dsimp only
    rw [if_neg hcap, hc, hr]
  · intro v reqs hb hv hcap hc hr
    unfold newEvent
    rw [if_neg (by simp [hb]), hv]
    dsimp only
    rw [if_neg hcap, hc, hr]

/-- A second submission overlapping `demoForm` on the same venue and date. -/
def demoFormClash : SubmitForm :=
  { demoForm with title := "Clash", start_time := "11:00", end_time := "13:00" }

/-- A submission with an empty title (missing required field). -/
def demoFormNoTitle : SubmitForm := { demoForm with title := "" }

/-- A submission exceeding the venue capacity. -/
def demoFormTooBig : SubmitForm := { demoForm with expected_attendees := 600 }

/-- A submission requesting more projectors than are available (at a
non-overlapping time). -/
def demoFormTooManyProjectors : SubmitForm :=
  { demoForm with
    title := "Greedy"
    start_time := "14:00"
    end_time := "16:00"
    req := fun i => if i == 1 then 99 else 0 }

theorem C5_check_order_witness :
    newEvent demoFormNoTitle 1 demoState = .error .fieldsMissing ∧
    newEvent demoFormTooBig 1 demoState = .error (.capacityExceeded 600 500) ∧
    newEvent demoFormClash 1 demoState1
      = .error (.timeSlotConflict "Tech Fest" "10:00" "12:00") ∧
    newEvent demoFormTooManyProjectors 1 demoState1
      = .error (.insufficientStock "Projector" 3 99) ∧
    stepTotal demoState1 (.submit demoFormClash 1) = demoState1 :=
  ⟨(C5_check_order demoState demoFormNoTitle 1).2.1 (by decide),
   (C5_check_order demoState demoFormTooBig 1).2.2.2.1
     ⟨1, "Main Auditorium", 500, "Block A"⟩ (by decide) (by decide) (by decide),
   (C5_check_order demoState1 demoFormClash 1).2.2.2.2.1
     ⟨1, "Main Auditorium", 500, "Block A"⟩ demoEvent1
     (by decide) (by decide) (by decide) (by decide),
   (C5_check_order demoState1 demoFormTooManyProjectors 1).2.2.2.2.2.1
     ⟨1, "Main Auditorium", 500, "Block A"⟩ (.insufficientStock "Projector" 3 99)
     (by decide) (by decide) (by decide) (by decide) (by decide),
   (C5_check_order demoState1 demoFormClash 1).1
     (.timeSlotConflict "Tech Fest" "10:00" "12:00")
     ((C5_check_order demoState1 demoFormClash 1).2.2.2.2.1
       ⟨1, "Main Auditorium", 500, "Block A"⟩ demoEvent1
       (by decide) (by decide) (by decide) (by decide))⟩

/-- Claim C4: with the earlier checks passed (fields present, venue
found, capacity sufficient), the submission is rejected with a time-slot
conflict exactly when some existing booking on the same venue and date
whose status is neither rejected nor completed overlaps the request
under NOT (e1 <= s2 OR s1 >= e2); the reported conflict carries the
first such booking's title and time range. -/
theorem C4_time_slot_conflict (s : State) (f : SubmitForm) (uid : Int) (v : Venue)
    (hb : basicsMissing f = false)
    (hv : findVenue s f.venue_id = some v)
    (hcap : ¬ f.expected_attendees > v.capacity) :
    ((∃ t a b, newEvent f uid s = .error (.timeSlotConflict t a b)) ↔
      ∃ e ∈ s.events, e.venue_id = f.venue_id ∧ e.event_date = f.event_date ∧
        e.status ≠ "rejected" ∧ e.status ≠ "completed" ∧
        ¬(strLeB e.end_time f.start_time = true ∨ strLeB f.end_time e.start_time = true)) ∧
    (∀ e, conflictQuery s f.venue_id f.event_date f.start_time f.end_time = some e →
      newEvent f uid s = .error (.timeSlotConflict e.title e.start_time e.end_time)) := by
  have hdir : ∀ e, conflictQuery s f.venue_id f.event_date f.start_time f.end_time = some e →
      newEvent f uid s = .error (.timeSlotConflict e.title e.start_time e.end_time) := by
    intro e hc
    unfold newEvent
    rw [if_neg (by simp [hb]), hv]
    dsimp only
    rw [if_neg hcap, hc]
  refine ⟨⟨?_, ?_⟩, hdir⟩
  · rintro ⟨t, a, b, herr⟩
    cases hc : conflictQuery s f.venue_id f.event_date f.start_time f.end_time with
    | none =>
      exfalso
      unfold newEvent at herr
      rw [if_neg (by simp [hb]), hv] at herr
      dsimp only at herr
      rw [if_neg hcap, hc] at herr
      cases hr : checkResources s.resources f.req with
      | error e2 =>
        rw [hr] at herr
        have : e2 = .timeSlotConflict t a b := by
          cases herr
          rfl
        rw [this] at hr
        exact checkResources_no_conflict s.resources f.req t a b hr
      | ok reqs =>
        rw [hr] at herr
        exact Except.noConfusion herr
    | some c =>
      have hp := List.find?_some hc
      have hmem := List.mem_of_find?_eq_some hc
      refine ⟨c, hmem, ?_⟩
      simpa [Bool.and_eq_true, not_or, and_assoc] using hp
  · rintro ⟨e, hmem, hprops⟩
    have hsome : (conflictQuery s f.venue_id f.event_date f.start_time f.end_time).isSome := by
      apply List.find?_isSome.mpr
      refine ⟨e, hmem, ?_⟩
      simpa [Bool.and_eq_true, not_or, and_assoc] using hprops
    obtain ⟨c, hc⟩ := Option.isSome_iff_exists.mp hsome
    exact ⟨c.title, c.start_time, c.end_time, hdir c hc⟩

theorem C4_time_slot_conflict_witness :
    basicsMissing demoFormClash = false ∧
    findVenue demoState1 1 = some ⟨1, "Main Auditorium", 500, "Block A"⟩ ∧
    newEvent demoFormClash 1 demoState1
      = .error (.timeSlotConflict "Tech Fest" "10:00" "12:00") :=
  ⟨by decide, by decide,
    (C4_time_slot_conflict demoState1 demoFormClash 1
        ⟨1, "Main Auditorium", 500, "Block A"⟩ (by decide) (by decide) (by decide)).2
      demoEvent1 (by decide)⟩

/-! ### Release capping (claim C3) and time-order validation (claim C9) -/

/-- A store in which available stock already equals total stock while a
hold row of a pending booking is still present: crediting that hold will
push available past total. -/
def overStockState : State :=
  { users := [⟨2, "hod"⟩],
    venues := [⟨1, "Hall", 100, ""⟩],
    resources := [⟨1, "Projector", 10, 10⟩],
    events := [⟨1, "Fest", "", "2024-05-01", "10:00", "12:00", 10, 1,
      "pending_hod", "hod", 1, ""⟩],
    event_resources := [⟨1, 1, 5⟩],
    approvals := [], notifications := [], next_event_id := 2 }

/-- Claim C3 is false of the code: the release path runs (the reject
returns Ok, no internal-consistency error is raised) and the credit is
applied in full, leaving available_quantity 15 above total_quantity 10 —
neither capped nor reported. -/
theorem C3_counterexample_release_uncapped :
    releases overStockState (.reject .hod 2 1 "no") 1 = true ∧
    (stepTotal overStockState (.reject .hod 2 1 "no")).resources
      = [⟨1, "Projector", 10, 15⟩] := by
  decide

/-- Claim C3 (amended): whenever the release path runs for a booking
(successful reject or complete), every resource is credited by the
booking's held quantity unconditionally — there is no cap at
total_quantity and no internal-consistency error path. -/
theorem C3_release_credits_unconditionally (s : State) (op : Op) (eid : Int)
    (h : releases s op eid = true) :
    (stepTotal s op).resources = s.resources.map (fun rr =>
      { rr with available_quantity := rr.available_quantity
          + holdsSum (heldBy s eid) (fun h2 => h2.resource_id == rr.id) }) := by
  cases op with
  | submit f uid => exact absurd h (by simp [releases])
  | approve r uid e2 c => exact absurd h (by simp [releases])
  | reject r uid e2 reason =>
    unfold releases at h
    rw [Bool.and_eq_true] at h
    obtain ⟨he2, hok⟩ := h
    have he2x : e2 = eid := by simpa using he2
    subst he2x
    cases hr : rejectEvent r uid e2 reason s with
    | error e =>
      rw [hr] at hok
      exact absurd hok (by simp [isOkE])
    | ok s2 =>
      simp only [stepTotal, hr]
      obtain ⟨ev, -, -, -, -, hres, -⟩ := rejectEvent_ok_elim r uid e2 reason s s2 hr
      rw [hres, creditHolds_eq]
  | complete uid e2 =>
    unfold releases at h
    rw [Bool.and_eq_true] at h
    obtain ⟨he2, hok⟩ := h
    have he2x : e2 = eid := by simpa using he2
    subst he2x
    cases hr : completeEvent uid e2 s with
    | error e =>
      rw [hr] at hok
      exact absurd hok (by simp [isOkE])
    | ok s2 =>
      simp only [stepTotal, hr]
      obtain ⟨ev, -, -, -, -, hres, -⟩ := completeEvent_ok_elim uid e2 s s2 hr
      rw [hres, creditHolds_eq]

theorem C3_release_credits_unconditionally_witness :
    releases overStockState (.reject .hod 2 1 "no") 1 = true ∧
    (stepTotal overStockState (.reject .hod 2 1 "no")).resources
      = overStockState.resources.map (fun rr =>
        { rr with available_quantity := rr.available_quantity
            + holdsSum (heldBy overStockState 1) (fun h2 => h2.resource_id == rr.id) }) :=
  ⟨by decide,
    C3_release_credits_unconditionally overStockState (.reject .hod 2 1 "no") 1 (by decide)⟩

/-- A store with one venue and no bookings or resources. -/
def bareState : State :=
  { users := [], venues := [⟨1, "Hall", 100, ""⟩], resources := [],
    events := [], event_resources := [], approvals := [], notifications := [],
    next_event_id := 1 }

/-- A submission whose start time is strictly after its end time. -/
def invertedForm : SubmitForm :=
  { title := "Backwards", description := "", event_date := "2024-05-01",
    start_time := "14:00", end_time := "10:00", expected_attendees := 10,
    venue_id := 1, req := fun _ => 0 }

/-- Claim C9 fails on the code: new_event never compares start_time with
end_time, so a submission with end_time before start_time is admitted
and the booking row is created. -/
theorem C9_inverted_times_admitted :
    strLtB invertedForm.end_time invertedForm.start_time = true ∧
    newEvent invertedForm 1 bareState = .ok (admitState invertedForm 1 bareState []) ∧
    (stepTotal bareState (.submit invertedForm 1)).events
      = [⟨1, "Backwards", "", "2024-05-01", "14:00", "10:00", 10, 1,
          "pending_hod", "hod", 1, ""⟩] := by
  decide

end EventMgr
